import Mathlib

/-!
Shallow embedding of `runsc/cmd/debug.go` (the `Debug` subcommand of runsc)
for checking the natural-language specification against the code.

Strings are modelled as `List Char`.  External collaborators
(`container.Load`, `container.List`, `syscall.Kill`, `os.Create`, the
sandbox control calls and `time.Sleep`) are modelled by an environment
record holding the result each call would return; the embedding records
every external call in an event trace so that ordering and occurrence
properties can be stated.  Go's `defer` statements are modelled by an
explicit LIFO stack of cleanup actions run when `Execute` returns;
`Fatalf` inside a deferred function terminates the process, so it stops
the stack and yields a `fatalStop` outcome.
-/

namespace RunscDebug

abbrev Str := List Char

/-- Model of Go `strings.ToLower` restricted to ASCII letters (the only
ones the code compares against). -/
def lower (s : Str) : Str := s.map Char.toLower

/-- Model of Go `strings.Split s sep` for a one-character separator
(`strings.Split(d.strace, ",")` in the source). -/
def splitOn (c : Char) : Str → List Str
  | [] => [[]]
  | x :: rest =>
      if x = c then [] :: splitOn c rest
      else
        match splitOn c rest with
        | [] => [[x]]
        | p :: ps => (x :: p) :: ps

/-- Model of Go `strconv.ParseBool`: accepts exactly
1/t/T/true/TRUE/True and 0/f/F/false/FALSE/False. -/
def parseBool (s : Str) : Except Unit Bool :=
  if s = "1".data ∨ s = "t".data ∨ s = "T".data ∨ s = "true".data ∨
      s = "TRUE".data ∨ s = "True".data then .ok true
  else if s = "0".data ∨ s = "f".data ∨ s = "F".data ∨ s = "false".data ∨
      s = "FALSE".data ∨ s = "False".data then .ok false
  else .error ()

/-- `log.Level` values used by the code: `log.Warning`, `log.Info`, `log.Debug`. -/
inductive Level
  | warning
  | info
  | debug
deriving DecidableEq, Repr

/-- `control.LoggingArgs` (the fields the code sets). -/
structure LoggingArgs where
  setStrace : Bool := false
  enableStrace : Bool := false
  straceWhitelist : List Str := []
  setLevel : Bool := false
  level : Level := .warning
  setLogPackets : Bool := false
  logPackets : Bool := false
deriving DecidableEq, Repr

/-- The pieces of `sandbox.Sandbox` the code reads: `ID`, `Pid`,
and the result of `IsRunning()`. -/
structure Sandbox where
  id : Str
  pid : Int
  running : Bool
deriving DecidableEq, Repr

/-- The pieces of `container.Container` the code reads: the result of
`SandboxPid()` and the (possibly nil) `Sandbox` pointer. -/
structure Container where
  sandboxPid : Int
  sandbox : Option Sandbox
deriving DecidableEq, Repr

/-- The `Debug` flag struct of `runsc/cmd/debug.go`.  The Go field
`stacks` is named `wantStacks` here because `stacks` is a reserved token
in this Lean environment. -/
structure Debug where
  pid : Int
  wantStacks : Bool
  signal : Int
  profileHeap : Str
  profileCPU : Str
  profileDelay : Int
  trace : Str
  strace : Str
  logLevel : Str
  logPackets : Str
deriving DecidableEq, Repr

/-- Results of the external calls `Execute` may make, fixed per run:
`container.Load(conf.RootDir, id)`, `container.List(conf.RootDir)`,
`syscall.Kill`, `Sandbox.Stacks`, `os.Create`, `Sandbox.HeapProfile`,
`Sandbox.StartCPUProfile` / `StopCPUProfile`, `StartTrace` / `StopTrace`,
and `Sandbox.ChangeLogging`.  `nargs` and `arg0` model `f.NArg()` and
`f.Arg(0)`. -/
structure Env where
  nargs : Nat
  arg0 : Str
  load : Str → Except Str Container
  list : Except Str (List Str)
  kill : Int → Int → Except Str Unit
  stacksRes : Except Str Str
  create : Str → Except Str Unit
  heapRes : Except Str Unit
  startCPU : Except Str Unit
  stopCPU : Except Str Unit
  startTr : Except Str Unit
  stopTr : Except Str Unit
  changeLogging : LoggingArgs → Except Str Unit

/-- Observable external actions of one run, in order. -/
inductive Event
  | listContainers
  | loadContainer (id : Str)
  | killSignal (sig : Int) (pid : Int)
  | getStacks
  | createFile (path : Str)
  | closeFile (path : Str)
  | heapProfileWrite (path : Str)
  | startCPUProfile (path : Str)
  | stopCPUProfile
  | startTrace (path : Str)
  | stopTrace
  | changeLogging (a : LoggingArgs)
  | sleep (seconds : Int)
deriving DecidableEq, Repr

/-- The `Errorf` messages of `Execute`, with the arguments each carries. -/
inductive ErrMsg
  | loadingContainer (id : Str) (e : Str)
  | listingContainers (e : Str)
  | containerNotFound (pid : Int)
  | notRunning
  | signalFailed (sig : Int) (pid : Int)
  | stacksFailed (e : Str)
  | plain (e : Str)
  | invalidLogLevel (s : Str)
  | invalidLogPackets (s : Str)
deriving DecidableEq, Repr

/-- Status reached by the body of `Execute` before deferred cleanup runs. -/
inductive MainStatus
  | usageErr
  | failure (e : ErrMsg)
  | success
deriving DecidableEq, Repr

/-- Final result of a run: the subcommand exit statuses, plus
`fatalStop` for `Fatalf` inside a deferred stop (process termination). -/
inductive Outcome
  | usageErr
  | failure (e : ErrMsg)
  | success
  | fatalStop (e : Str)
deriving DecidableEq, Repr

/-- The deferred cleanups `Execute` can register: `defer f.Close()` for the
heap-profile file, and the two deferred closures that close the file and
then stop the CPU profile / the trace (calling `Fatalf` if stopping fails). -/
inductive DeferAct
  | closeOnly (path : Str)
  | cpuCleanup (path : Str)
  | traceCleanup (path : Str)
deriving DecidableEq, Repr

/-- Run one deferred action: its events, and the `Fatalf` message if the
stop call failed. -/
def runOneDefer (env : Env) : DeferAct → List Event × Option Str
  | .closeOnly p => ([.closeFile p], none)
  | .cpuCleanup p =>
      ([.closeFile p, .stopCPUProfile],
       match env.stopCPU with
       | .ok _ => none
       | .error e => some e)
  | .traceCleanup p =>
      ([.closeFile p, .stopTrace],
       match env.stopTr with
       | .ok _ => none
       | .error e => some e)

/-- Run a stack of deferred actions (head = most recently registered,
as Go runs defers in LIFO order); a `Fatalf` terminates the process, so
the remaining deferred actions do not run. -/
def runDefers (env : Env) : List DeferAct → List Event × Option Str
  | [] => ([], none)
  | a :: rest =>
      match runOneDefer env a with
      | (evs, some e) => (evs, some e)
      | (evs, none) =>
          match runDefers env rest with
          | (evs2, fat2) => (evs ++ evs2, fat2)

/-- The PID scan of lines 102-111: load each listed id in turn; a load
error aborts; the first loaded container whose `SandboxPid()` equals the
requested pid is returned and the loop `break`s. -/
def scanForPid (env : Env) (pid : Int) : List Str → List Event × Except ErrMsg (Option Container)
  | [] => ([], .ok none)
  | id :: rest =>
      match env.load id with
      | .error e => ([.loadContainer id], .error (.loadingContainer id e))
      | .ok cand =>
          if cand.sandboxPid = pid then ([.loadContainer id], .ok (some cand))
          else
            match scanForPid env pid rest with
            | (evs, r) => (.loadContainer id :: evs, r)

/-- Lines 81-115: argument-count validation and resolution of the target
container, either by positional id (`pid == 0`) or by PID scan. -/
def resolveTarget (d : Debug) (env : Env) : List Event × Except MainStatus Container :=
  if d.pid = 0 then
    if env.nargs ≠ 1 then ([], .error .usageErr)
    else
      match env.load env.arg0 with
      | .error e => ([.loadContainer env.arg0], .error (.failure (.loadingContainer env.arg0 e)))
      | .ok c => ([.loadContainer env.arg0], .ok c)
  else
    if env.nargs ≠ 0 then ([], .error .usageErr)
    else
      match env.list with
      | .error e => ([.listContainers], .error (.failure (.listingContainers e)))
      | .ok ids =>
          match scanForPid env d.pid ids with
          | (evs, r) =>
              (.listContainers :: evs,
               match r with
               | .error em => .error (.failure em)
               | .ok none => .error (.failure (.containerNotFound d.pid))
               | .ok (some c) => .ok c)

/-- Lines 122-127: signal delivery when `d.signal > 0`. -/
def signalStep (d : Debug) (env : Env) (sb : Sandbox) : List Event × Option ErrMsg :=
  if d.signal > 0 then
    ([.killSignal d.signal sb.pid],
     match env.kill sb.pid d.signal with
     | .error _ => some (.signalFailed d.signal sb.pid)
     | .ok _ => none)
  else ([], none)

/-- Lines 128-135: stack dump retrieval when `d.stacks`. -/
def stacksStep (d : Debug) (env : Env) : List Event × Option ErrMsg :=
  if d.wantStacks then
    ([.getStacks],
     match env.stacksRes with
     | .error e => some (.stacksFailed e)
     | .ok _ => none)
  else ([], none)

/-- Lines 136-147: heap profile; on successful create, `defer f.Close()`
is registered. -/
def heapStep (d : Debug) (env : Env) : List Event × List DeferAct × Option ErrMsg :=
  if d.profileHeap ≠ [] then
    match env.create d.profileHeap with
    | .error e => ([.createFile d.profileHeap], [], some (.plain e))
    | .ok _ =>
        ([.createFile d.profileHeap, .heapProfileWrite d.profileHeap],
         [.closeOnly d.profileHeap],
         match env.heapRes with
         | .error e => some (.plain e)
         | .ok _ => none)
  else ([], [], none)

/-- Lines 150-167: CPU profile; on successful create, the cleanup closure
(close then stop, `Fatalf` on stop error) is registered, then the start
call is attempted. -/
def cpuStep (d : Debug) (env : Env) : List Event × List DeferAct × Option ErrMsg :=
  if d.profileCPU ≠ [] then
    match env.create d.profileCPU with
    | .error e => ([.createFile d.profileCPU], [], some (.plain e))
    | .ok _ =>
        ([.createFile d.profileCPU, .startCPUProfile d.profileCPU],
         [.cpuCleanup d.profileCPU],
         match env.startCPU with
         | .error e => some (.plain e)
         | .ok _ => none)
  else ([], [], none)

/-- Lines 168-186: execution trace, same shape as the CPU-profile step. -/
def traceStep (d : Debug) (env : Env) : List Event × List DeferAct × Option ErrMsg :=
  if d.trace ≠ [] then
    match env.create d.trace with
    | .error e => ([.createFile d.trace], [], some (.plain e))
    | .ok _ =>
        ([.createFile d.trace, .startTrace d.trace],
         [.traceCleanup d.trace],
         match env.startTr with
         | .error e => some (.plain e)
         | .ok _ => none)
  else ([], [], none)

/-- Lines 191-205: the strace part of the `LoggingArgs` construction. -/
def straceArgs (strace : Str) (a : LoggingArgs) : LoggingArgs :=
  if strace ≠ [] then
    if lower strace = "off".data then a
    else
      let a1 := { a with enableStrace := true }
      if lower strace = "all".data then a1
      else { a1 with straceWhitelist := splitOn ',' strace }
  else a

/-- Lines 207-220: the log-level part of the `LoggingArgs` construction. -/
def levelArgs (lvl : Str) (a : LoggingArgs) : Except ErrMsg LoggingArgs :=
  if lvl.length ≠ 0 then
    let a1 := { a with setLevel := true }
    if lower lvl = "warning".data ∨ lower lvl = "0".data then .ok { a1 with level := .warning }
    else if lower lvl = "info".data ∨ lower lvl = "1".data then .ok { a1 with level := .info }
    else if lower lvl = "debug".data ∨ lower lvl = "2".data then .ok { a1 with level := .debug }
    else .error (.invalidLogLevel lvl)
  else .ok a

/-- Lines 222-234: the packet-logging part of the `LoggingArgs` construction. -/
def packetsArgs (lp : Str) (a : LoggingArgs) : Except ErrMsg LoggingArgs :=
  if lp.length ≠ 0 then
    let a1 := { a with setLogPackets := true }
    match parseBool lp with
    | .error _ => .error (.invalidLogPackets lp)
    | .ok b => .ok { a1 with logPackets := b }
  else .ok a

/-- Lines 189-234: the whole `control.LoggingArgs` value the code builds,
starting from `control.LoggingArgs{SetStrace: true}`. -/
def buildLoggingArgs (d : Debug) : Except ErrMsg LoggingArgs :=
  match levelArgs d.logLevel (straceArgs d.strace { setStrace := true }) with
  | .error e => .error e
  | .ok a => packetsArgs d.logPackets a

/-- Lines 188-240: the logging reconfiguration step; the combined args are
validated first and `ChangeLogging` is called once if validation passed. -/
def loggingStep (d : Debug) (env : Env) : List Event × Option ErrMsg :=
  if d.strace ≠ [] ∨ d.logLevel.length ≠ 0 ∨ d.logPackets.length ≠ 0 then
    match buildLoggingArgs d with
    | .error e => ([], some e)
    | .ok a =>
        ([.changeLogging a],
         match env.changeLogging a with
         | .error e => some (.plain e)
         | .ok _ => none)
  else ([], none)

/-- Result of the body of `Execute`: the events emitted, the stack of
registered deferred actions (head = most recently registered), and the
status the body returned with. -/
structure MainOut where
  events : List Event
  defers : List DeferAct
  status : MainStatus
deriving DecidableEq, Repr

/-- Sequential composition of action steps with early return: each entry
is one step's (events, registered defers, optional error); after the
first erroring step the later steps do not run.  Defers of later steps
accumulate in front (they were registered later, so Go runs them first). -/
def chain : List (List Event × List DeferAct × Option ErrMsg) →
    List Event × List DeferAct × Option ErrMsg
  | [] => ([], [], none)
  | (evs, dfs, some er) :: _ => (evs, dfs, some er)
  | (evs, dfs, none) :: rest =>
      (evs ++ (chain rest).1, (chain rest).2.1 ++ dfs, (chain rest).2.2)

/-- Lift a step that registers no deferred cleanup. -/
def stepOnly (p : List Event × Option ErrMsg) : List Event × List DeferAct × Option ErrMsg :=
  (p.1, [], p.2)

/-- Lines 242-244: `if delay { time.Sleep(...) }`; `delay` is true iff a
CPU-profile or trace path was given (it is set before the corresponding
create/start calls, and any failure there returns early, so at this point
`delay = (profileCPU != "" || trace != "")`). -/
def sleepStep (d : Debug) : List Event × List DeferAct × Option ErrMsg :=
  ((if d.profileCPU ≠ [] ∨ d.trace ≠ [] then [.sleep d.profileDelay] else []), [], none)

/-- The fixed sequence of action steps after resolution and the liveness
check: signal → stacks → heap profile → CPU profile start → trace start →
logging reconfiguration → optional sleep. -/
def actionSteps (d : Debug) (env : Env) (sb : Sandbox) :
    List (List Event × List DeferAct × Option ErrMsg) :=
  [stepOnly (signalStep d env sb), stepOnly (stacksStep d env), heapStep d env,
   cpuStep d env, traceStep d env, stepOnly (loggingStep d env), sleepStep d]

/-- Lines 117-246 of `Execute` given the resolution result: the liveness
check (`c.Sandbox == nil || !c.Sandbox.IsRunning()`), then the fixed
action sequence with early return on the first error. -/
def afterResolve (d : Debug) (env : Env) : Except MainStatus Container → MainOut
  | .error st => ⟨[], [], st⟩
  | .ok c =>
      match c.sandbox with
      | none => ⟨[], [], .failure .notRunning⟩
      | some sb =>
          if sb.running = false then ⟨[], [], .failure .notRunning⟩
          else
            ⟨(chain (actionSteps d env sb)).1,
             (chain (actionSteps d env sb)).2.1,
             match (chain (actionSteps d env sb)).2.2 with
             | some er => .failure er
             | none => .success⟩

/-- The body of `Debug.Execute` (lines 77-246) without the deferred
cleanups: resolution, then liveness check and the fixed action sequence. -/
def mainPhase (d : Debug) (env : Env) : MainOut :=
  ⟨(resolveTarget d env).1 ++ (afterResolve d env (resolveTarget d env).2).events,
   (afterResolve d env (resolveTarget d env).2).defers,
   (afterResolve d env (resolveTarget d env).2).status⟩

/-- The exit status corresponding to a body status when no deferred
cleanup called `Fatalf`. -/
def statusOutcome : MainStatus → Outcome
  | .usageErr => .usageErr
  | .failure e => .failure e
  | .success => .success

/-- `Debug.Execute`: the body followed by the deferred cleanups; a
`Fatalf` in a deferred stop terminates the process (`fatalStop`),
otherwise the body's status is the exit status. -/
def Execute (d : Debug) (env : Env) : List Event × Outcome :=
  ((mainPhase d env).events ++ (runDefers env (mainPhase d env).defers).1,
   match (runDefers env (mainPhase d env).defers).2 with
   | some e => .fatalStop e
   | none => statusOutcome (mainPhase d env).status)

/-- The `LoggingArgs` payload of a `changeLogging` event, if any. -/
def changeOf : Event → Option LoggingArgs
  | .changeLogging a => some a
  | _ => none

/-- The `LoggingArgs` payloads sent to the sandbox in a trace, in order. -/
def sentSets (evs : List Event) : List LoggingArgs :=
  evs.filterMap changeOf

/-- The (signal, pid) of a `killSignal` event, if any. -/
def killOf : Event → Option (Int × Int)
  | .killSignal s p => some (s, p)
  | _ => none

/-- The signal-delivery attempts of a trace, in order. -/
def killAttempts (evs : List Event) : List (Int × Int) :=
  evs.filterMap killOf

/-- Whether an event is one of the deferred stop calls. -/
def isStopEv (e : Event) : Bool :=
  decide (e = .stopCPUProfile) || decide (e = .stopTrace)

/-- `prevOK cpu tr prev e`: if `e` is a stop call, the immediately
preceding event (`prev`) must be the close of the corresponding file. -/
def prevOK (cpu tr : Str) (prev : Option Event) (e : Event) : Bool :=
  if e = .stopCPUProfile then decide (prev = some (.closeFile cpu))
  else if e = .stopTrace then decide (prev = some (.closeFile tr))
  else true

/-- Every stop event in the list is immediately preceded by the close of
its session's output file (close-then-stop order). -/
def stopsClosed (cpu tr : Str) : Option Event → List Event → Bool
  | _, [] => true
  | prev, e :: rest => prevOK cpu tr prev e && stopsClosed cpu tr (some e) rest

/-! ### Lemmas about `splitOn` (Go `strings.Split` with separator ",") -/

/-- Joining a list of parts with a separator character; used to state that
`splitOn` neither drops nor alters characters. -/
def joinWith (c : Char) : List Str → Str
  | [] => []
  | [p] => p
  | p :: ps => p ++ c :: joinWith c ps

theorem splitOn_ne_nil (c : Char) (l : Str) : splitOn c l ≠ [] := by
  induction l with
  | nil => simp [splitOn]
  | cons x rest ih =>
      by_cases hx : x = c
      · simp [splitOn, hx]
      · simp only [splitOn, if_neg hx]
        split <;> simp

theorem joinWith_cons_cons (c : Char) (x : Char) (p : Str) (ps : List Str) :
    joinWith c ((x :: p) :: ps) = x :: joinWith c (p :: ps) := by
  cases ps <;> simp [joinWith]

theorem joinWith_splitOn (c : Char) (l : Str) : joinWith c (splitOn c l) = l := by
  induction l with
  | nil => simp [splitOn, joinWith]
  | cons x rest ih =>
      by_cases hx : x = c
      · subst hx
        simp only [splitOn, if_pos rfl]
        match h : splitOn x rest with
        | [] => exact absurd h (splitOn_ne_nil x rest)
        | p :: ps =>
            rw [h] at ih
            simp [joinWith, ih]
      · simp only [splitOn, if_neg hx]
        match h : splitOn c rest with
        | [] => exact absurd h (splitOn_ne_nil c rest)
        | p :: ps =>
            rw [h] at ih
            rw [joinWith_cons_cons, ih]

theorem not_mem_of_mem_splitOn (c : Char) (l : Str) (p : Str)
    (hp : p ∈ splitOn c l) : c ∉ p := by
  induction l generalizing p with
  | nil =>
      simp [splitOn] at hp
      simp [hp]
  | cons x rest ih =>
      by_cases hx : x = c
      · rw [hx] at hp
        simp only [splitOn, if_pos rfl] at hp
        rcases List.mem_cons.mp hp with h | h
        · simp [h]
        · exact ih p h
      · simp only [splitOn, if_neg hx] at hp
        match h : splitOn c rest with
        | [] => exact absurd h (splitOn_ne_nil c rest)
        | q :: qs =>
            rw [h] at hp
            rcases List.mem_cons.mp hp with h1 | h1
            · subst h1
              intro hmem
              rcases List.mem_cons.mp hmem with h2 | h2
              · exact hx h2.symm
              · exact ih q (h ▸ List.mem_cons_self q qs) h2
            · exact ih p (h ▸ List.mem_cons_of_mem q h1)

theorem length_splitOn (c : Char) (l : Str) :
    (splitOn c l).length = l.count c + 1 := by
  induction l with
  | nil => simp [splitOn]
  | cons x rest ih =>
      by_cases hx : x = c
      · subst hx
        simp only [splitOn, if_pos rfl]
        simp [List.count_cons, ih]
      · simp only [splitOn, if_neg hx]
        match h : splitOn c rest with
        | [] => exact absurd h (splitOn_ne_nil c rest)
        | q :: qs =>
            rw [h] at ih
            simp only [List.length_cons] at ih ⊢
            rw [List.count_cons]
            simp [Ne.symm hx, hx, ih]

/-! ### Lemmas about the `LoggingArgs` construction -/

theorem straceArgs_base (s : Str) (a : LoggingArgs) :
    (straceArgs s a).setStrace = a.setStrace ∧
    (straceArgs s a).setLevel = a.setLevel ∧
    (straceArgs s a).level = a.level ∧
    (straceArgs s a).setLogPackets = a.setLogPackets ∧
    (straceArgs s a).logPackets = a.logPackets := by
  unfold straceArgs
  repeat' split
  all_goals exact ⟨rfl, rfl, rfl, rfl, rfl⟩

theorem straceArgs_nil (a : LoggingArgs) : straceArgs [] a = a := by
  simp [straceArgs]

theorem straceArgs_off (s : Str) (a : LoggingArgs) (h : lower s = "off".data) :
    straceArgs s a = a := by
  rcases eq_or_ne s [] with hs | hs
  · simp [straceArgs, hs]
  · simp [straceArgs, hs, h]

theorem straceArgs_all (s : Str) (a : LoggingArgs) (hne : s ≠ [])
    (hoff : lower s ≠ "off".data) (h : lower s = "all".data) :
    straceArgs s a = { a with enableStrace := true } := by
  unfold straceArgs
  rw [if_pos hne, if_neg hoff, if_pos h]

theorem straceArgs_listed (s : Str) (a : LoggingArgs) (hne : s ≠ [])
    (hoff : lower s ≠ "off".data) (hall : lower s ≠ "all".data) :
    straceArgs s a = { a with enableStrace := true, straceWhitelist := splitOn ',' s } := by
  unfold straceArgs
  rw [if_pos hne, if_neg hoff, if_neg hall]

theorem levelArgs_nil (a : LoggingArgs) : levelArgs [] a = .ok a := by
  simp [levelArgs]

theorem levelArgs_ok_of_ne (lvl : Str) (a b : LoggingArgs) (hne : lvl ≠ [])
    (h : levelArgs lvl a = .ok b) :
    b.setLevel = true ∧ b.setStrace = a.setStrace ∧
    b.enableStrace = a.enableStrace ∧ b.straceWhitelist = a.straceWhitelist ∧
    b.setLogPackets = a.setLogPackets ∧ b.logPackets = a.logPackets := by
  unfold levelArgs at h
  rw [if_pos (by simpa using hne)] at h
  repeat' split at h
  all_goals first
    | (cases h; simp)
    | cases h

theorem packetsArgs_nil (a : LoggingArgs) : packetsArgs [] a = .ok a := by
  simp [packetsArgs]

theorem packetsArgs_ok_of_ne (lp : Str) (a b : LoggingArgs) (hne : lp ≠ [])
    (h : packetsArgs lp a = .ok b) :
    b.setLogPackets = true ∧ b.setStrace = a.setStrace ∧
    b.enableStrace = a.enableStrace ∧ b.straceWhitelist = a.straceWhitelist ∧
    b.setLevel = a.setLevel ∧ b.level = a.level := by
  unfold packetsArgs at h
  rw [if_pos (by simpa using hne)] at h
  split at h
  · cases h
  · cases h
    simp

/-- The set-flags of any `LoggingArgs` value the code actually builds:
`setStrace` is always true, while `setLevel` and `setLogPackets` track
whether their inputs were supplied. -/
theorem buildLoggingArgs_flags (d : Debug) (a : LoggingArgs)
    (h : buildLoggingArgs d = .ok a) :
    a.setStrace = true ∧ (a.setLevel = true ↔ d.logLevel ≠ []) ∧
      (a.setLogPackets = true ↔ d.logPackets ≠ []) := by
  unfold buildLoggingArgs at h
  revert h
  cases hl : levelArgs d.logLevel (straceArgs d.strace { setStrace := true }) with
  | error e => intro h; cases h
  | ok mid =>
      intro h
      have hpk : packetsArgs d.logPackets mid = .ok a := h
      have hs := straceArgs_base d.strace { setStrace := true }
      have hmid : mid.setStrace = true ∧ (mid.setLevel = true ↔ d.logLevel ≠ []) ∧
          mid.setLogPackets = false := by
        by_cases hlvl : d.logLevel = []
        · rw [hlvl, levelArgs_nil] at hl
          cases hl
          refine ⟨hs.1, ?_, ?_⟩
          · simp [hs.2.1, hlvl]
          · simp [hs.2.2.2.1]
        · have := levelArgs_ok_of_ne d.logLevel _ mid hlvl hl
          refine ⟨by rw [this.2.1, hs.1], by simp [this.1, hlvl], ?_⟩
          rw [this.2.2.2.2.1, hs.2.2.2.1]
      by_cases hlp : d.logPackets = []
      · rw [hlp, packetsArgs_nil] at hpk
        cases hpk
        refine ⟨hmid.1, hmid.2.1, by simp [hmid.2.2, hlp]⟩
      · have := packetsArgs_ok_of_ne d.logPackets mid a hlp hpk
        refine ⟨by rw [this.2.1, hmid.1], ?_, by simp [this.1, hlp]⟩
        rw [this.2.2.2.2.1]
        exact hmid.2.1

/-- The strace-related fields of any `LoggingArgs` value the code builds
are exactly those produced by the strace branch. -/
theorem buildLoggingArgs_strace_fields (d : Debug) (a : LoggingArgs)
    (h : buildLoggingArgs d = .ok a) :
    a.enableStrace = (straceArgs d.strace { setStrace := true }).enableStrace ∧
    a.straceWhitelist = (straceArgs d.strace { setStrace := true }).straceWhitelist := by
  unfold buildLoggingArgs at h
  revert h
  cases hl : levelArgs d.logLevel (straceArgs d.strace { setStrace := true }) with
  | error e => intro h; cases h
  | ok mid =>
      intro h
      have hpk : packetsArgs d.logPackets mid = .ok a := h
      have hmid : mid.enableStrace = (straceArgs d.strace { setStrace := true }).enableStrace ∧
          mid.straceWhitelist = (straceArgs d.strace { setStrace := true }).straceWhitelist := by
        by_cases hlvl : d.logLevel = []
        · rw [hlvl, levelArgs_nil] at hl; cases hl; exact ⟨rfl, rfl⟩
        · have := levelArgs_ok_of_ne d.logLevel _ mid hlvl hl
          exact ⟨this.2.2.1, this.2.2.2.1⟩
      by_cases hlp : d.logPackets = []
      · rw [hlp, packetsArgs_nil] at hpk; cases hpk; exact hmid
      · have := packetsArgs_ok_of_ne d.logPackets mid a hlp hpk
        exact ⟨this.2.2.1 ▸ hmid.1, this.2.2.2.1 ▸ hmid.2⟩

/-- An invalid non-empty log level makes the whole construction fail with
`invalidLogLevel`, so no `LoggingArgs` value exists to send. -/
theorem buildLoggingArgs_invalid_level (d : Debug) (hne : d.logLevel ≠ [])
    (hw : lower d.logLevel ≠ "warning".data) (h0 : lower d.logLevel ≠ "0".data)
    (hi : lower d.logLevel ≠ "info".data) (h1 : lower d.logLevel ≠ "1".data)
    (hd : lower d.logLevel ≠ "debug".data) (h2 : lower d.logLevel ≠ "2".data) :
    buildLoggingArgs d = .error (.invalidLogLevel d.logLevel) := by
  unfold buildLoggingArgs levelArgs
  rw [if_pos (by simpa using hne)]
  rw [if_neg (by simp [hw, h0]), if_neg (by simp [hi, h1]), if_neg (by simp [hd, h2])]

/-! ### Shape lemmas for the individual steps -/

theorem mem_scanForPid (env : Env) (pid : Int) (ids : List Str) (e : Event)
    (h : e ∈ (scanForPid env pid ids).1) : ∃ id, e = .loadContainer id := by
  induction ids with
  | nil => simp [scanForPid] at h
  | cons id rest ih =>
      unfold scanForPid at h
      repeat' split at h
      all_goals simp at h
      · exact ⟨id, h⟩
      · exact ⟨id, h⟩
      · rcases h with h | h
        · exact ⟨id, h⟩
        · rename_i heq
          exact ih (by rw [heq]; exact h)

theorem mem_resolveTarget (d : Debug) (env : Env) (e : Event)
    (h : e ∈ (resolveTarget d env).1) :
    e = .listContainers ∨ ∃ id, e = .loadContainer id := by
  unfold resolveTarget at h
  repeat' split at h
  all_goals simp at h
  all_goals first
    | exact .inr ⟨env.arg0, h⟩
    | exact .inl h
    | (rcases h with h | h
       · exact .inl h
       · rename_i heq
         exact .inr (mem_scanForPid env d.pid _ e (by rw [heq]; exact h)))

theorem mem_signalStep (d : Debug) (env : Env) (sb : Sandbox) (e : Event)
    (h : e ∈ (signalStep d env sb).1) :
    e = .killSignal d.signal sb.pid ∧ 0 < d.signal := by
  unfold signalStep at h
  split at h
  · simp at h
    rename_i hs
    exact ⟨h, hs⟩
  · simp at h

theorem mem_stacksStep (d : Debug) (env : Env) (e : Event)
    (h : e ∈ (stacksStep d env).1) : e = .getStacks := by
  unfold stacksStep at h
  split at h <;> simp at h
  exact h

theorem mem_heapStep (d : Debug) (env : Env) (e : Event)
    (h : e ∈ (heapStep d env).1) :
    e = .createFile d.profileHeap ∨ e = .heapProfileWrite d.profileHeap := by
  unfold heapStep at h
  repeat' split at h
  all_goals simp at h
  all_goals first | exact .inl h | exact h

theorem mem_cpuStep (d : Debug) (env : Env) (e : Event)
    (h : e ∈ (cpuStep d env).1) :
    e = .createFile d.profileCPU ∨ e = .startCPUProfile d.profileCPU := by
  unfold cpuStep at h
  repeat' split at h
  all_goals simp at h
  all_goals first | exact .inl h | exact h

theorem mem_traceStep (d : Debug) (env : Env) (e : Event)
    (h : e ∈ (traceStep d env).1) :
    e = .createFile d.trace ∨ e = .startTrace d.trace := by
  unfold traceStep at h
  repeat' split at h
  all_goals simp at h
  all_goals first | exact .inl h | exact h

theorem mem_loggingStep (d : Debug) (env : Env) (e : Event)
    (h : e ∈ (loggingStep d env).1) :
    ∃ a, e = .changeLogging a ∧ buildLoggingArgs d = .ok a ∧
      (d.strace ≠ [] ∨ d.logLevel.length ≠ 0 ∨ d.logPackets.length ≠ 0) := by
  unfold loggingStep at h
  repeat' split at h
  all_goals simp at h
  all_goals exact ⟨_, h, by assumption, by assumption⟩

theorem mem_runOneDefer (env : Env) (a : DeferAct) (e : Event)
    (h : e ∈ (runOneDefer env a).1) :
    (∃ p, a = .closeOnly p ∧ e = .closeFile p) ∨
    (∃ p, a = .cpuCleanup p ∧ (e = .closeFile p ∨ e = .stopCPUProfile)) ∨
    (∃ p, a = .traceCleanup p ∧ (e = .closeFile p ∨ e = .stopTrace)) := by
  cases a with
  | closeOnly p => simp [runOneDefer] at h; exact .inl ⟨p, rfl, h⟩
  | cpuCleanup p => simp [runOneDefer] at h; exact .inr (.inl ⟨p, rfl, h⟩)
  | traceCleanup p => simp [runOneDefer] at h; exact .inr (.inr ⟨p, rfl, h⟩)

theorem mem_runDefers (env : Env) (L : List DeferAct) (e : Event)
    (h : e ∈ (runDefers env L).1) : ∃ a ∈ L, e ∈ (runOneDefer env a).1 := by
  induction L with
  | nil => simp [runDefers] at h
  | cons a rest ih =>
      unfold runDefers at h
      split at h
      · rename_i heq
        exact ⟨a, List.mem_cons_self a rest, by rw [heq]; exact h⟩
      · rename_i evs heq
        rcases hrest : runDefers env rest with ⟨evs2, fat2⟩
        rw [hrest] at h
        replace h : e ∈ evs ++ evs2 := h
        rcases List.mem_append.mp h with h1 | h1
        · exact ⟨a, List.mem_cons_self a rest, by rw [heq]; exact h1⟩
        · rcases ih (by rw [hrest]; exact h1) with ⟨b, hb, hbe⟩
          exact ⟨b, List.mem_cons_of_mem a hb, hbe⟩

/-! ### Master decomposition lemmas for `mainPhase` and `Execute` -/

theorem mem_chain_events (l : List (List Event × List DeferAct × Option ErrMsg)) (e : Event)
    (h : e ∈ (chain l).1) : ∃ s ∈ l, e ∈ s.1 := by
  induction l with
  | nil => simp [chain] at h
  | cons x rest ih =>
      rcases x with ⟨evs, dfs, r⟩
      cases r with
      | some er =>
          exact ⟨(evs, dfs, some er), List.mem_cons_self _ _, h⟩
      | none =>
          replace h : e ∈ evs ++ (chain rest).1 := h
          rcases List.mem_append.mp h with h1 | h1
          · exact ⟨(evs, dfs, none), List.mem_cons_self _ _, h1⟩
          · rcases ih h1 with ⟨s, hs, hse⟩
            exact ⟨s, List.mem_cons_of_mem _ hs, hse⟩

theorem mem_chain_defers (l : List (List Event × List DeferAct × Option ErrMsg)) (a : DeferAct)
    (h : a ∈ (chain l).2.1) : ∃ s ∈ l, a ∈ s.2.1 := by
  induction l with
  | nil => simp [chain] at h
  | cons x rest ih =>
      rcases x with ⟨evs, dfs, r⟩
      cases r with
      | some er =>
          exact ⟨(evs, dfs, some er), List.mem_cons_self _ _, h⟩
      | none =>
          replace h : a ∈ (chain rest).2.1 ++ dfs := h
          rcases List.mem_append.mp h with h1 | h1
          · rcases ih h1 with ⟨s, hs, hsa⟩
            exact ⟨s, List.mem_cons_of_mem _ hs, hsa⟩
          · exact ⟨(evs, dfs, none), List.mem_cons_self _ _, h1⟩

theorem mem_afterResolve_events (d : Debug) (env : Env)
    (r : Except MainStatus Container) (e : Event)
    (h : e ∈ (afterResolve d env r).events) :
    ∃ sb, e ∈ (chain (actionSteps d env sb)).1 := by
  cases r with
  | error st => simp [afterResolve] at h
  | ok c =>
      rcases c with ⟨spid, sopt⟩
      cases sopt with
      | none => simp [afterResolve] at h
      | some sb =>
          by_cases hrun : sb.running = false
          · simp [afterResolve, hrun] at h
          · exact ⟨sb, by simpa [afterResolve, hrun] using h⟩

theorem mem_afterResolve_defers (d : Debug) (env : Env)
    (r : Except MainStatus Container) (a : DeferAct)
    (h : a ∈ (afterResolve d env r).defers) :
    ∃ sb, a ∈ (chain (actionSteps d env sb)).2.1 := by
  cases r with
  | error st => simp [afterResolve] at h
  | ok c =>
      rcases c with ⟨spid, sopt⟩
      cases sopt with
      | none => simp [afterResolve] at h
      | some sb =>
          by_cases hrun : sb.running = false
          · simp [afterResolve, hrun] at h
          · exact ⟨sb, by simpa [afterResolve, hrun] using h⟩

theorem mem_mainPhase_events (d : Debug) (env : Env) (e : Event)
    (h : e ∈ (mainPhase d env).events) :
    e ∈ (resolveTarget d env).1 ∨
    (∃ sb, e ∈ (signalStep d env sb).1) ∨
    e ∈ (stacksStep d env).1 ∨
    e ∈ (heapStep d env).1 ∨
    e ∈ (cpuStep d env).1 ∨
    e ∈ (traceStep d env).1 ∨
    e ∈ (loggingStep d env).1 ∨
    (e = .sleep d.profileDelay ∧ (d.profileCPU ≠ [] ∨ d.trace ≠ [])) := by
  rcases List.mem_append.mp h with h1 | h1
  · exact .inl h1
  · rcases mem_afterResolve_events d env _ e h1 with ⟨sb, h2⟩
    rcases mem_chain_events _ e h2 with ⟨s, hs, hse⟩
    simp only [actionSteps, List.mem_cons, List.not_mem_nil, or_false] at hs
    rcases hs with hs | hs | hs | hs | hs | hs | hs
    all_goals rw [hs] at hse
    · exact .inr (.inl ⟨_, hse⟩)
    · exact .inr (.inr (.inl hse))
    · exact .inr (.inr (.inr (.inl hse)))
    · exact .inr (.inr (.inr (.inr (.inl hse))))
    · exact .inr (.inr (.inr (.inr (.inr (.inl hse)))))
    · exact .inr (.inr (.inr (.inr (.inr (.inr (.inl hse))))))
    · unfold sleepStep at hse
      revert hse
      split
      · rename_i hflag
        intro hse
        simp at hse
        exact .inr (.inr (.inr (.inr (.inr (.inr (.inr ⟨hse, hflag⟩))))))
      · intro hse
        simp at hse

theorem mem_mainPhase_defers (d : Debug) (env : Env) (a : DeferAct)
    (h : a ∈ (mainPhase d env).defers) :
    a = .closeOnly d.profileHeap ∨ a = .cpuCleanup d.profileCPU ∨
      a = .traceCleanup d.trace := by
  rcases mem_afterResolve_defers d env _ a h with ⟨sb, h1⟩
  rcases mem_chain_defers _ a h1 with ⟨s, hs, hsa⟩
  simp only [actionSteps, List.mem_cons, List.not_mem_nil, or_false] at hs
  rcases hs with hs | hs | hs | hs | hs | hs | hs
  all_goals rw [hs] at hsa
  · simp [stepOnly] at hsa
  · simp [stepOnly] at hsa
  · unfold heapStep at hsa
    repeat' split at hsa
    all_goals simp at hsa
    all_goals exact .inl hsa
  · unfold cpuStep at hsa
    repeat' split at hsa
    all_goals simp at hsa
    all_goals exact .inr (.inl hsa)
  · unfold traceStep at hsa
    repeat' split at hsa
    all_goals simp at hsa
    all_goals exact .inr (.inr hsa)
  · simp [stepOnly] at hsa
  · simp [sleepStep] at hsa

theorem mem_execute_events (d : Debug) (env : Env) (e : Event)
    (h : e ∈ (Execute d env).1) :
    e ∈ (mainPhase d env).events ∨
      ∃ a ∈ (mainPhase d env).defers, e ∈ (runOneDefer env a).1 := by
  replace h : e ∈ (mainPhase d env).events ++ (runDefers env (mainPhase d env).defers).1 := h
  rcases List.mem_append.mp h with h1 | h1
  · exact .inl h1
  · exact .inr (mem_runDefers env _ e h1)

/-- The events of `chain l` are exactly the concatenated events of the
first `k` steps, for some `k` (the steps that actually ran: all of them,
or everything up to and including the first erroring one). -/
theorem chain_events_take (l : List (List Event × List DeferAct × Option ErrMsg)) :
    ∃ k, k ≤ l.length ∧ (l ≠ [] → 1 ≤ k) ∧
      (chain l).1 = ((l.take k).map (fun s => s.1)).flatten := by
  induction l with
  | nil => exact ⟨0, by simp, by simp, by simp [chain]⟩
  | cons x rest ih =>
      rcases x with ⟨evs, dfs, r⟩
      cases r with
      | some er => exact ⟨1, by simp, fun _ => le_refl 1, by simp [chain]⟩
      | none =>
          rcases ih with ⟨k, hk, _, hev⟩
          refine ⟨k + 1, by simpa using hk, fun _ => by omega, ?_⟩
          show evs ++ (chain rest).1 = _
          simp [hev]

/-! ### Close-then-stop order of the deferred cleanups -/

theorem prevOK_of_not_stop (cpu tr : Str) (prev : Option Event) (e : Event)
    (h : isStopEv e = false) : prevOK cpu tr prev e = true := by
  simp only [isStopEv, Bool.or_eq_false_iff, decide_eq_false_iff_not] at h
  simp [prevOK, h.1, h.2]

theorem stopsClosed_append (cpu tr : Str) (B : List Event)
    (hB : ∀ pr, stopsClosed cpu tr pr B = true) :
    ∀ (A : List Event), (∀ e ∈ A, isStopEv e = false) →
      ∀ pr, stopsClosed cpu tr pr (A ++ B) = true := by
  intro A
  induction A with
  | nil => intro _ pr; simpa using hB pr
  | cons x A ih =>
      intro hA pr
      rw [List.cons_append]
      simp only [stopsClosed, Bool.and_eq_true]
      refine ⟨prevOK_of_not_stop cpu tr pr x (hA x (List.mem_cons_self x A)), ?_⟩
      exact ih (fun e he => hA e (List.mem_cons_of_mem x he)) (some x)

theorem runDefers_stopsClosed (env : Env) (cpu tr hp : Str)
    (L : List DeferAct)
    (hL : ∀ a ∈ L, a = .closeOnly hp ∨ a = .cpuCleanup cpu ∨ a = .traceCleanup tr) :
    ∀ pr, stopsClosed cpu tr pr (runDefers env L).1 = true := by
  induction L with
  | nil => intro pr; simp [runDefers, stopsClosed]
  | cons a rest ih =>
      intro pr
      have hrest := fun b hb => hL b (List.mem_cons_of_mem a hb)
      rcases hL a (List.mem_cons_self a rest) with ha | ha | ha <;> subst ha
      · show stopsClosed cpu tr pr ((runDefers env (.closeOnly hp :: rest)).1) = true
        have : (runDefers env (.closeOnly hp :: rest)).1 =
            .closeFile hp :: (runDefers env rest).1 := by
          simp [runDefers, runOneDefer]
        rw [this]
        simp only [stopsClosed, Bool.and_eq_true]
        exact ⟨by simp [prevOK], ih hrest _⟩
      · rcases hstop : env.stopCPU with er | u
        · have : (runDefers env (.cpuCleanup cpu :: rest)).1 =
              [.closeFile cpu, .stopCPUProfile] := by
            simp [runDefers, runOneDefer, hstop]
          rw [this]
          simp [stopsClosed, prevOK]
        · have : (runDefers env (.cpuCleanup cpu :: rest)).1 =
              .closeFile cpu :: .stopCPUProfile :: (runDefers env rest).1 := by
            simp [runDefers, runOneDefer, hstop]
          rw [this]
          simp only [stopsClosed, Bool.and_eq_true]
          exact ⟨by simp [prevOK], by simp [prevOK], ih hrest _⟩
      · rcases hstop : env.stopTr with er | u
        · have : (runDefers env (.traceCleanup tr :: rest)).1 =
              [.closeFile tr, .stopTrace] := by
            simp [runDefers, runOneDefer, hstop]
          rw [this]
          simp [stopsClosed, prevOK]
        · have : (runDefers env (.traceCleanup tr :: rest)).1 =
              .closeFile tr :: .stopTrace :: (runDefers env rest).1 := by
            simp [runDefers, runOneDefer, hstop]
          rw [this]
          simp only [stopsClosed, Bool.and_eq_true]
          exact ⟨by simp [prevOK], by simp [prevOK], ih hrest _⟩

/-! ### Which steps send logging changes or signals -/

theorem sentSets_append (A B : List Event) :
    sentSets (A ++ B) = sentSets A ++ sentSets B :=
  List.filterMap_append A B changeOf

theorem killAttempts_append (A B : List Event) :
    killAttempts (A ++ B) = killAttempts A ++ killAttempts B :=
  List.filterMap_append A B killOf

theorem sentSets_resolveTarget (d : Debug) (env : Env) :
    sentSets (resolveTarget d env).1 = [] :=
  List.filterMap_eq_nil_iff.mpr fun e he => by
    rcases mem_resolveTarget d env e he with h | ⟨id, h⟩ <;> simp [h, changeOf]

theorem sentSets_signalStep (d : Debug) (env : Env) (sb : Sandbox) :
    sentSets (signalStep d env sb).1 = [] :=
  List.filterMap_eq_nil_iff.mpr fun e he => by
    have := (mem_signalStep d env sb e he).1
    simp [this, changeOf]

theorem sentSets_stacksStep (d : Debug) (env : Env) :
    sentSets (stacksStep d env).1 = [] :=
  List.filterMap_eq_nil_iff.mpr fun e he => by
    have := mem_stacksStep d env e he
    simp [this, changeOf]

theorem sentSets_heapStep (d : Debug) (env : Env) :
    sentSets (heapStep d env).1 = [] :=
  List.filterMap_eq_nil_iff.mpr fun e he => by
    rcases mem_heapStep d env e he with h | h <;> simp [h, changeOf]

theorem sentSets_cpuStep (d : Debug) (env : Env) :
    sentSets (cpuStep d env).1 = [] :=
  List.filterMap_eq_nil_iff.mpr fun e he => by
    rcases mem_cpuStep d env e he with h | h <;> simp [h, changeOf]

theorem sentSets_traceStep (d : Debug) (env : Env) :
    sentSets (traceStep d env).1 = [] :=
  List.filterMap_eq_nil_iff.mpr fun e he => by
    rcases mem_traceStep d env e he with h | h <;> simp [h, changeOf]

theorem sentSets_sleepStep (d : Debug) : sentSets (sleepStep d).1 = [] := by
  unfold sleepStep
  split <;> simp [sentSets, changeOf]

theorem sentSets_runDefers (env : Env) (L : List DeferAct) :
    sentSets (runDefers env L).1 = [] :=
  List.filterMap_eq_nil_iff.mpr fun e he => by
    rcases mem_runDefers env L e he with ⟨a, _, hae⟩
    rcases mem_runOneDefer env a e hae with ⟨p, _, h⟩ | ⟨p, _, h | h⟩ | ⟨p, _, h | h⟩ <;>
      simp [h, changeOf]

theorem sentSets_loggingStep (d : Debug) (env : Env) :
    sentSets (loggingStep d env).1 = [] ∨
    ∃ a, buildLoggingArgs d = .ok a ∧ sentSets (loggingStep d env).1 = [a] := by
  unfold loggingStep
  repeat' split
  all_goals first
    | (left; simp [sentSets, changeOf]; done)
    | (right; exact ⟨_, by assumption, by simp [sentSets, changeOf]⟩)

theorem killAttempts_resolveTarget (d : Debug) (env : Env) :
    killAttempts (resolveTarget d env).1 = [] :=
  List.filterMap_eq_nil_iff.mpr fun e he => by
    rcases mem_resolveTarget d env e he with h | ⟨id, h⟩ <;> simp [h, killOf]

theorem killAttempts_stacksStep (d : Debug) (env : Env) :
    killAttempts (stacksStep d env).1 = [] :=
  List.filterMap_eq_nil_iff.mpr fun e he => by
    have := mem_stacksStep d env e he
    simp [this, killOf]

theorem killAttempts_heapStep (d : Debug) (env : Env) :
    killAttempts (heapStep d env).1 = [] :=
  List.filterMap_eq_nil_iff.mpr fun e he => by
    rcases mem_heapStep d env e he with h | h <;> simp [h, killOf]

theorem killAttempts_cpuStep (d : Debug) (env : Env) :
    killAttempts (cpuStep d env).1 = [] :=
  List.filterMap_eq_nil_iff.mpr fun e he => by
    rcases mem_cpuStep d env e he with h | h <;> simp [h, killOf]

theorem killAttempts_traceStep (d : Debug) (env : Env) :
    killAttempts (traceStep d env).1 = [] :=
  List.filterMap_eq_nil_iff.mpr fun e he => by
    rcases mem_traceStep d env e he with h | h <;> simp [h, killOf]

theorem killAttempts_loggingStep (d : Debug) (env : Env) :
    killAttempts (loggingStep d env).1 = [] :=
  List.filterMap_eq_nil_iff.mpr fun e he => by
    rcases mem_loggingStep d env e he with ⟨a, h, _⟩
    simp [h, killOf]

theorem killAttempts_sleepStep (d : Debug) : killAttempts (sleepStep d).1 = [] := by
  unfold sleepStep
  split <;> simp [killAttempts, killOf]

theorem killAttempts_runDefers (env : Env) (L : List DeferAct) :
    killAttempts (runDefers env L).1 = [] :=
  List.filterMap_eq_nil_iff.mpr fun e he => by
    rcases mem_runDefers env L e he with ⟨a, _, hae⟩
    rcases mem_runOneDefer env a e hae with ⟨p, _, h⟩ | ⟨p, _, h | h⟩ | ⟨p, _, h | h⟩ <;>
      simp [h, killOf]

theorem killAttempts_signalStep_pos (d : Debug) (env : Env) (sb : Sandbox)
    (h : 0 < d.signal) :
    killAttempts (signalStep d env sb).1 = [(d.signal, sb.pid)] := by
  simp [signalStep, h, killAttempts, killOf]

/-- At most one `LoggingArgs` payload is ever sent in a run, and any sent
payload is the one `buildLoggingArgs` produced. -/
theorem sentSets_execute (d : Debug) (env : Env) :
    sentSets (Execute d env).1 = [] ∨
    ∃ a, buildLoggingArgs d = .ok a ∧ sentSets (Execute d env).1 = [a] := by
  have hsplit : sentSets (Execute d env).1 =
      sentSets (resolveTarget d env).1 ++
      sentSets (afterResolve d env (resolveTarget d env).2).events ++
      sentSets (runDefers env (mainPhase d env).defers).1 := by
    rw [show (Execute d env).1 = ((resolveTarget d env).1 ++
        (afterResolve d env (resolveTarget d env).2).events) ++
        (runDefers env (mainPhase d env).defers).1 from rfl,
      sentSets_append, sentSets_append]
  rw [hsplit, sentSets_resolveTarget, sentSets_runDefers, List.append_nil, List.nil_append]
  cases hr : (resolveTarget d env).2 with
  | error st => left; simp [afterResolve, sentSets]
  | ok c =>
      rcases c with ⟨spid, sopt⟩
      cases sopt with
      | none => left; simp [afterResolve, sentSets]
      | some sb =>
          by_cases hrun : sb.running = false
          · left; simp [afterResolve, hrun, sentSets]
          · have hAR : (afterResolve d env (Except.ok (⟨spid, some sb⟩ : Container))).events =
                (chain (actionSteps d env sb)).1 := by
              simp [afterResolve, hrun]
            rw [hAR]
            rcases chain_events_take (actionSteps d env sb) with ⟨k, hk, -, hev⟩
            rw [hev]
            have hlen : (actionSteps d env sb).length = 7 := by simp [actionSteps]
            rw [hlen] at hk
            interval_cases k
            all_goals first
              | (left; rfl)
              | (left
                 simp [actionSteps, sentSets_append, stepOnly, sentSets_signalStep,
                   sentSets_stacksStep, sentSets_heapStep, sentSets_cpuStep,
                   sentSets_traceStep, sentSets_sleepStep]
                 done)
              | (rcases sentSets_loggingStep d env with h | ⟨a, hb, h⟩
                 · left
                   simp [actionSteps, sentSets_append, stepOnly, h, sentSets_signalStep,
                     sentSets_stacksStep, sentSets_heapStep, sentSets_cpuStep,
                     sentSets_traceStep, sentSets_sleepStep]
                 · right
                   refine ⟨a, hb, ?_⟩
                   simp [actionSteps, sentSets_append, stepOnly, h, sentSets_signalStep,
                     sentSets_stacksStep, sentSets_heapStep, sentSets_cpuStep,
                     sentSets_traceStep, sentSets_sleepStep])

/-- When resolution finds a live sandbox and a positive signal is
requested, exactly one delivery attempt is made, to the sandbox's PID. -/
theorem killAttempts_execute_resolved (d : Debug) (env : Env)
    (c : Container) (sb : Sandbox)
    (hres : (resolveTarget d env).2 = .ok c) (hsb : c.sandbox = some sb)
    (hrun : sb.running = true) (hsig : 0 < d.signal) :
    killAttempts (Execute d env).1 = [(d.signal, sb.pid)] := by
  have hsplit : killAttempts (Execute d env).1 =
      killAttempts (resolveTarget d env).1 ++
      killAttempts (afterResolve d env (resolveTarget d env).2).events ++
      killAttempts (runDefers env (mainPhase d env).defers).1 := by
    rw [show (Execute d env).1 = ((resolveTarget d env).1 ++
        (afterResolve d env (resolveTarget d env).2).events) ++
        (runDefers env (mainPhase d env).defers).1 from rfl,
      killAttempts_append, killAttempts_append]
  rw [hsplit, killAttempts_resolveTarget, killAttempts_runDefers, List.append_nil,
    List.nil_append, hres]
  have hAR : (afterResolve d env (.ok c)).events = (chain (actionSteps d env sb)).1 := by
    simp [afterResolve, hsb, hrun]
  rw [hAR]
  rcases chain_events_take (actionSteps d env sb) with ⟨k, hk, hne, hev⟩
  rw [hev]
  have h1 : 1 ≤ k := hne (by simp [actionSteps])
  have hlen : (actionSteps d env sb).length = 7 := by simp [actionSteps]
  rw [hlen] at hk
  interval_cases k
  all_goals
    simp [actionSteps, killAttempts_append, stepOnly,
      killAttempts_signalStep_pos d env sb hsig, killAttempts_stacksStep,
      killAttempts_heapStep, killAttempts_cpuStep, killAttempts_traceStep,
      killAttempts_loggingStep, killAttempts_sleepStep]

/-- When `pid == 0`, one positional argument is present and the load
succeeds, resolution returns the loaded container. -/
theorem resolveTarget_happy (d : Debug) (env : Env) (c : Container)
    (h0 : d.pid = 0) (h1 : env.nargs = 1) (h2 : env.load env.arg0 = .ok c) :
    resolveTarget d env = ([.loadContainer env.arg0], .ok c) := by
  simp [resolveTarget, h0, h1, h2]

theorem mainPhase_no_stop (d : Debug) (env : Env) (e : Event)
    (h : e ∈ (mainPhase d env).events) : isStopEv e = false := by
  rcases mem_mainPhase_events d env e h with h | ⟨sb, h⟩ | h | h | h | h | h | ⟨h, _⟩
  · rcases mem_resolveTarget d env e h with h | ⟨id, h⟩ <;> simp [h, isStopEv]
  · have := (mem_signalStep d env sb e h).1
    simp [this, isStopEv]
  · have := mem_stacksStep d env e h
    simp [this, isStopEv]
  · rcases mem_heapStep d env e h with h | h <;> simp [h, isStopEv]
  · rcases mem_cpuStep d env e h with h | h <;> simp [h, isStopEv]
  · rcases mem_traceStep d env e h with h | h <;> simp [h, isStopEv]
  · rcases mem_loggingStep d env e h with ⟨a, h, _⟩
    simp [h, isStopEv]
  · simp [h, isStopEv]

/-! ### Tracing individual event kinds through a whole run -/

theorem changeOf_eq_some (e : Event) (a : LoggingArgs) (h : changeOf e = some a) :
    e = .changeLogging a := by
  cases e <;> simp [changeOf] at h
  rw [h]

/-- Any logging payload appearing in a run's trace is the one built by
`buildLoggingArgs`, and at least one of the three inputs was present. -/
theorem changeLogging_mem_execute (d : Debug) (env : Env) (a : LoggingArgs)
    (h : Event.changeLogging a ∈ (Execute d env).1) :
    buildLoggingArgs d = .ok a ∧
      (d.strace ≠ [] ∨ d.logLevel.length ≠ 0 ∨ d.logPackets.length ≠ 0) := by
  rcases mem_execute_events d env _ h with h1 | ⟨b, _, h1⟩
  · rcases mem_mainPhase_events d env _ h1 with
      h2 | ⟨sb, h2⟩ | h2 | h2 | h2 | h2 | h2 | ⟨h2, _⟩
    · rcases mem_resolveTarget d env _ h2 with h3 | ⟨id, h3⟩ <;> simp at h3
    · have := (mem_signalStep d env sb _ h2).1
      simp at this
    · have := mem_stacksStep d env _ h2
      simp at this
    · rcases mem_heapStep d env _ h2 with h3 | h3 <;> simp at h3
    · rcases mem_cpuStep d env _ h2 with h3 | h3 <;> simp at h3
    · rcases mem_traceStep d env _ h2 with h3 | h3 <;> simp at h3
    · rcases mem_loggingStep d env _ h2 with ⟨a', ha', hb', hc'⟩
      have : a = a' := by injection ha'
      rw [this]
      exact ⟨hb', hc'⟩
    · simp at h2
  · rcases mem_runOneDefer env b _ h1 with ⟨p, _, h2⟩ | ⟨p, _, h2 | h2⟩ | ⟨p, _, h2 | h2⟩ <;>
      simp at h2

/-- The container id of a `loadContainer` event, if any. -/
def loadOf : Event → Option Str
  | .loadContainer id => some id
  | _ => none

/-- The ids loaded from the registry during a run, in order. -/
def loadedIds (evs : List Event) : List Str :=
  evs.filterMap loadOf

theorem loadedIds_append (A B : List Event) :
    loadedIds (A ++ B) = loadedIds A ++ loadedIds B :=
  List.filterMap_append A B loadOf

theorem loadedIds_afterResolve (d : Debug) (env : Env) (r : Except MainStatus Container) :
    loadedIds (afterResolve d env r).events = [] :=
  List.filterMap_eq_nil_iff.mpr fun e he => by
    rcases mem_afterResolve_events d env r e he with ⟨sb, h1⟩
    rcases mem_chain_events _ e h1 with ⟨s, hs, hse⟩
    simp only [actionSteps, List.mem_cons, List.not_mem_nil, or_false] at hs
    rcases hs with hs | hs | hs | hs | hs | hs | hs
    all_goals rw [hs] at hse
    · have := (mem_signalStep d env sb e hse).1
      simp [this, loadOf]
    · have := mem_stacksStep d env e hse
      simp [this, loadOf]
    · rcases mem_heapStep d env e hse with h | h <;> simp [h, loadOf]
    · rcases mem_cpuStep d env e hse with h | h <;> simp [h, loadOf]
    · rcases mem_traceStep d env e hse with h | h <;> simp [h, loadOf]
    · rcases mem_loggingStep d env e hse with ⟨a, h, _⟩
      simp [h, loadOf]
    · unfold sleepStep at hse
      revert hse
      split <;> intro hse <;> simp at hse
      simp [hse, loadOf]

theorem loadedIds_runDefers (env : Env) (L : List DeferAct) :
    loadedIds (runDefers env L).1 = [] :=
  List.filterMap_eq_nil_iff.mpr fun e he => by
    rcases mem_runDefers env L e he with ⟨a, _, hae⟩
    rcases mem_runOneDefer env a e hae with ⟨p, _, h⟩ | ⟨p, _, h | h⟩ | ⟨p, _, h | h⟩ <;>
      simp [h, loadOf]

/-- The ids a run loads are exactly the ids resolution loads. -/
theorem loadedIds_execute (d : Debug) (env : Env) :
    loadedIds (Execute d env).1 = loadedIds (resolveTarget d env).1 := by
  rw [show (Execute d env).1 = ((resolveTarget d env).1 ++
      (afterResolve d env (resolveTarget d env).2).events) ++
      (runDefers env (mainPhase d env).defers).1 from rfl,
    loadedIds_append, loadedIds_append, loadedIds_afterResolve, loadedIds_runDefers,
    List.append_nil, List.append_nil]

theorem loadedIds_map_loadContainer (l : List Str) :
    loadedIds (l.map Event.loadContainer) = l := by
  induction l with
  | nil => rfl
  | cons x rest ih => simp [loadedIds, loadOf] at ih ⊢; exact ih

/-! ### Concrete sandboxes and environments for counterexamples and witnesses -/

/-- A running sandbox with OS pid 7. -/
def sbOK : Sandbox := { id := "x".data, pid := 7, running := true }

/-- A loaded container whose sandbox is `sbOK`. -/
def cOK : Container := { sandboxPid := 7, sandbox := some sbOK }

/-- An environment where every external call succeeds and one positional
argument "x" is given. -/
def envOK : Env where
  nargs := 1
  arg0 := "x".data
  load := fun _ => .ok cOK
  list := .ok []
  kill := fun _ _ => .ok ()
  stacksRes := .ok "stack".data
  create := fun _ => .ok ()
  heapRes := .ok ()
  startCPU := .ok ()
  stopCPU := .ok ()
  startTr := .ok ()
  stopTr := .ok ()
  changeLogging := fun _ => .ok ()

/-- The flag defaults set in `SetFlags` (lines 63-74). -/
def dDefault : Debug :=
  { pid := 0, wantStacks := false, signal := -1, profileHeap := [], profileCPU := [],
    profileDelay := 5, trace := [], strace := [], logLevel := [], logPackets := [] }

/-! ### C1 -/

/-- A request supplying only the log-level input. -/
def dC1 : Debug := { dDefault with logLevel := "info".data }

/-- C1 counterexample: with only a log-level input supplied (strace input
absent), the single `LoggingChangeSet` sent has `setStrace = true` — the
code initialises the args with `SetStrace: true` unconditionally — so the
set-flags are not only those corresponding to the supplied inputs. -/
theorem c1_counterexample :
    dC1.strace = [] ∧
    sentSets (Execute dC1 envOK).1 =
      [{ setStrace := true, setLevel := true, level := .info }] ∧
    ¬ (∀ a ∈ sentSets (Execute dC1 envOK).1, a.setStrace = false) := by
  decide

/-- C1 (amended): at most one `LoggingChangeSet` is sent per run, and none
when all three inputs are absent.  Whenever a set is sent, `setStrace` is
always true (even when no strace input was supplied), while `setLevel` and
`setLogPackets` are true iff their inputs were supplied.  When at least one
input is present, the specs are valid and resolution and the preceding
actions succeed, exactly one set is sent, namely the built one. -/
theorem c1_logging_set_flags (d : Debug) (env : Env) :
    ((sentSets (Execute d env).1).length ≤ 1) ∧
    (d.strace = [] ∧ d.logLevel = [] ∧ d.logPackets = [] →
       sentSets (Execute d env).1 = []) ∧
    (∀ a ∈ sentSets (Execute d env).1,
       a.setStrace = true ∧ (a.setLevel = true ↔ d.logLevel ≠ []) ∧
         (a.setLogPackets = true ↔ d.logPackets ≠ [])) ∧
    (∀ c sb a, d.pid = 0 → env.nargs = 1 → env.load env.arg0 = .ok c →
       c.sandbox = some sb → sb.running = true →
       d.signal = -1 → d.wantStacks = false → d.profileHeap = [] →
       d.profileCPU = [] → d.trace = [] → buildLoggingArgs d = .ok a →
       (d.strace ≠ [] ∨ d.logLevel.length ≠ 0 ∨ d.logPackets.length ≠ 0) →
       sentSets (Execute d env).1 = [a]) := by
  refine ⟨?_, ?_, ?_, ?_⟩
  · rcases sentSets_execute d env with h | ⟨a, _, h⟩ <;> simp [h]
  · intro ⟨h1, h2, h3⟩
    refine List.filterMap_eq_nil_iff.mpr fun e he => ?_
    cases e <;> simp [changeOf]
    rename_i a
    have := (changeLogging_mem_execute d env a (by assumption)).2
    simp [h1, h2, h3] at this
  · intro a ha
    rcases List.mem_filterMap.mp ha with ⟨e, he, hce⟩
    have heq := changeOf_eq_some e a hce
    rw [heq] at he
    have hb := (changeLogging_mem_execute d env a he).1
    exact buildLoggingArgs_flags d a hb
  · intro c sb a h0 h1 h2 hsb hrun hsig hst hph hpc htr hb hcond
    have hres := resolveTarget_happy d env c h0 h1 h2
    have hcond' : ¬d.strace = [] ∨ ¬d.logLevel = [] ∨ ¬d.logPackets = [] := by
      simpa using hcond
    rcases hcl : env.changeLogging a with er | u <;>
      simp [Execute, mainPhase, afterResolve, hres, hsb, hrun, actionSteps, chain, stepOnly,
        signalStep, hsig, stacksStep, hst, heapStep, hph, cpuStep, hpc, traceStep, htr,
        loggingStep, hcond', hb, hcl, sleepStep, runDefers, sentSets, changeOf]

/-- C1 witness: a run with only strace and log-packets inputs sends
exactly the built set. -/
def dC1w : Debug := { dDefault with strace := "off".data, logPackets := "true".data }

theorem c1_witness :
    sentSets (Execute dC1w envOK).1 =
      [{ setStrace := true, setLogPackets := true, logPackets := true }] :=
  (c1_logging_set_flags dC1w envOK).2.2.2 cOK sbOK
    { setStrace := true, setLogPackets := true, logPackets := true }
    rfl rfl rfl rfl rfl rfl rfl rfl rfl rfl rfl (by decide)

/-! ### C2 -/

/-- A request asking only for a CPU profile. -/
def dC2 : Debug := { dDefault with profileCPU := "cpu".data }

/-- C2 counterexample: on a successful CPU-profile run the cleanup closes
the output file before issuing the stop request — `closeFile` appears
strictly before `stopCPUProfile` in the trace — contradicting the claimed
stop-then-close order. -/
theorem c2_counterexample :
    Execute dC2 envOK =
      ([.loadContainer "x".data, .createFile "cpu".data, .startCPUProfile "cpu".data,
        .sleep 5, .closeFile "cpu".data, .stopCPUProfile], .success) ∧
    (Execute dC2 envOK).1.indexOf (.closeFile "cpu".data) <
      (Execute dC2 envOK).1.indexOf .stopCPUProfile := by
  decide

/-- C2 (amended): for every run and every exit path, cleanup closes the
session's output file immediately before issuing the stop request
(close-then-stop): every `stopCPUProfile` (resp. `stopTrace`) event is
immediately preceded by the close of the CPU-profile (resp. trace) file. -/
theorem c2_close_then_stop (d : Debug) (env : Env) :
    stopsClosed d.profileCPU d.trace none (Execute d env).1 = true := by
  have hdef : ∀ pr, stopsClosed d.profileCPU d.trace pr
      (runDefers env (mainPhase d env).defers).1 = true :=
    runDefers_stopsClosed env d.profileCPU d.trace d.profileHeap _
      (fun a ha => mem_mainPhase_defers d env a ha)
  exact stopsClosed_append d.profileCPU d.trace _ hdef
    (mainPhase d env).events (mainPhase_no_stop d env) none

/-! ### C3 -/

/-- A request asking for a CPU profile together with an invalid log level. -/
def dC3 : Debug := { dDefault with profileCPU := "cpu".data, logLevel := "bogus".data }

/-- C3 counterexample: the CPU-profile session becomes active (start
succeeded), then the invalid log level aborts the command; finalization
(close and stop) runs with no sleep anywhere in the trace, so the delay
does not happen on this exit path even though a session was active. -/
theorem c3_counterexample :
    Execute dC3 envOK =
      ([.loadContainer "x".data, .createFile "cpu".data, .startCPUProfile "cpu".data,
        .closeFile "cpu".data, .stopCPUProfile],
       .failure (.invalidLogLevel "bogus".data)) ∧
    Event.startCPUProfile "cpu".data ∈ (Execute dC3 envOK).1 ∧
    Event.sleep dC3.profileDelay ∉ (Execute dC3 envOK).1 := by
  decide

/-- C3 (amended): a sleep occurs only when a CPU-profile or trace path was
requested, and then only for `profileDelay` (in particular heap-only or
stacks-only runs never sleep); on a fully successful CPU-profile run the
orchestrator sleeps after the main actions and finalization (close and
stop) runs after the sleep; on an early return finalization runs without
any sleep. -/
theorem c3_delay (d : Debug) (env : Env) :
    (∀ s : Int, .sleep s ∈ (Execute d env).1 →
       s = d.profileDelay ∧ (d.profileCPU ≠ [] ∨ d.trace ≠ [])) ∧
    (∀ c sb, d.pid = 0 → env.nargs = 1 → env.load env.arg0 = .ok c →
       c.sandbox = some sb → sb.running = true →
       d.signal = -1 → d.wantStacks = false → d.profileHeap = [] →
       d.profileCPU ≠ [] → d.trace = [] →
       d.strace = [] → d.logLevel = [] → d.logPackets = [] →
       env.create d.profileCPU = .ok () → env.startCPU = .ok () → env.stopCPU = .ok () →
       Execute d env =
         ([.loadContainer env.arg0, .createFile d.profileCPU,
           .startCPUProfile d.profileCPU, .sleep d.profileDelay,
           .closeFile d.profileCPU, .stopCPUProfile], .success)) := by
  constructor
  · intro s hs
    rcases mem_execute_events d env _ hs with h1 | ⟨b, _, h1⟩
    · rcases mem_mainPhase_events d env _ h1 with
        h2 | ⟨sb, h2⟩ | h2 | h2 | h2 | h2 | h2 | ⟨h2, hflag⟩
      · rcases mem_resolveTarget d env _ h2 with h3 | ⟨id, h3⟩ <;> simp at h3
      · have := (mem_signalStep d env sb _ h2).1
        simp at this
      · have := mem_stacksStep d env _ h2
        simp at this
      · rcases mem_heapStep d env _ h2 with h3 | h3 <;> simp at h3
      · rcases mem_cpuStep d env _ h2 with h3 | h3 <;> simp at h3
      · rcases mem_traceStep d env _ h2 with h3 | h3 <;> simp at h3
      · rcases mem_loggingStep d env _ h2 with ⟨a, h3, _⟩
        simp at h3
      · have hsd : s = d.profileDelay := by injection h2
        exact ⟨hsd, hflag⟩
    · rcases mem_runOneDefer env b _ h1 with ⟨p, _, h2⟩ | ⟨p, _, h2 | h2⟩ | ⟨p, _, h2 | h2⟩ <;>
        simp at h2
  · intro c sb h0 h1 h2 hsb hrun hsig hst hph hpc htr hstrace hlvl hlp hcr hstart hstop
    have hres := resolveTarget_happy d env c h0 h1 h2
    simp [Execute, mainPhase, afterResolve, hres, hsb, hrun, actionSteps, chain, stepOnly,
      signalStep, hsig, stacksStep, hst, heapStep, hph, cpuStep, hpc, hcr, hstart,
      traceStep, htr, loggingStep, hstrace, hlvl, hlp, sleepStep, runDefers, runOneDefer,
      hstop, statusOutcome]

/-- C3 witness: a plain successful CPU-profile run. -/
def dC3w : Debug := { dDefault with profileCPU := "cpu".data }

theorem c3_witness :
    Execute dC3w envOK =
      ([.loadContainer "x".data, .createFile "cpu".data, .startCPUProfile "cpu".data,
        .sleep 5, .closeFile "cpu".data, .stopCPUProfile], .success) :=
  (c3_delay dC3w envOK).2 cOK sbOK rfl rfl rfl rfl rfl rfl rfl rfl (by decide)
    rfl rfl rfl rfl rfl rfl rfl

/-! ### C4 -/

/-- `loadOkNonMatch env pid id`: loading `id` succeeds and the loaded
container's sandbox PID differs from `pid` (the entry is scanned past). -/
def loadOkNonMatch (env : Env) (pid : Int) (id : Str) : Bool :=
  match env.load id with
  | .ok cand => decide (cand.sandboxPid ≠ pid)
  | .error _ => false

theorem scanForPid_no_match (env : Env) (pid : Int) (ids : List Str)
    (h : ∀ i ∈ ids, loadOkNonMatch env pid i = true) :
    scanForPid env pid ids = (ids.map .loadContainer, .ok none) := by
  induction ids with
  | nil => rfl
  | cons i rest ih =>
      have hi := h i (List.mem_cons_self i rest)
      unfold loadOkNonMatch at hi
      revert hi
      cases hl : env.load i with
      | error e => intro hi; simp at hi
      | ok cand =>
          intro hi
          have hne : cand.sandboxPid ≠ pid := by simpa using hi
          have hrest := ih (fun j hj => h j (List.mem_cons_of_mem i hj))
          simp [scanForPid, hl, hne, hrest]

theorem scanForPid_first_match (env : Env) (pid : Int) (pre : List Str) (id : Str)
    (c : Container) (post : List Str)
    (hpre : ∀ i ∈ pre, loadOkNonMatch env pid i = true)
    (hload : env.load id = .ok c) (hmatch : c.sandboxPid = pid) :
    scanForPid env pid (pre ++ id :: post) =
      ((pre ++ [id]).map .loadContainer, .ok (some c)) := by
  induction pre with
  | nil => simp [scanForPid, hload, hmatch]
  | cons i rest ih =>
      have hi := hpre i (List.mem_cons_self i rest)
      unfold loadOkNonMatch at hi
      revert hi
      cases hl : env.load i with
      | error e => intro hi; simp at hi
      | ok cand =>
          intro hi
          have hne : cand.sandboxPid ≠ pid := by simpa using hi
          have hrest := ih (fun j hj => hpre j (List.mem_cons_of_mem i hj))
          simp [scanForPid, hl, hne, hrest]

theorem scanForPid_load_failure (env : Env) (pid : Int) (pre : List Str) (id : Str)
    (er : Str) (post : List Str)
    (hpre : ∀ i ∈ pre, loadOkNonMatch env pid i = true)
    (hload : env.load id = .error er) :
    scanForPid env pid (pre ++ id :: post) =
      ((pre ++ [id]).map .loadContainer, .error (.loadingContainer id er)) := by
  induction pre with
  | nil => simp [scanForPid, hload]
  | cons i rest ih =>
      have hi := hpre i (List.mem_cons_self i rest)
      unfold loadOkNonMatch at hi
      revert hi
      cases hl : env.load i with
      | error e => intro hi; simp at hi
      | ok cand =>
          intro hi
          have hne : cand.sandboxPid ≠ pid := by simpa using hi
          have hrest := ih (fun j hj => hpre j (List.mem_cons_of_mem i hj))
          simp [scanForPid, hl, hne, hrest]

/-- C4: PID-based resolution.  (a) With entries before the match loading
to non-matching containers, the scan loads exactly the entries up to and
including the first match and selects the matching container, and the
whole run loads no further entry.  (b) A load failure on an entry before
any match fails the whole command with the load error.  (c) If every entry
loads to a non-matching container, the command fails with the
container-not-found error after loading every entry. -/
theorem c4_pid_resolution (d : Debug) (env : Env) (ids : List Str)
    (hpid : d.pid ≠ 0) (hn : env.nargs = 0) (hlist : env.list = .ok ids) :
    (∀ pre id c post, ids = pre ++ id :: post →
       (∀ i ∈ pre, loadOkNonMatch env d.pid i = true) →
       env.load id = .ok c → c.sandboxPid = d.pid →
       (resolveTarget d env).2 = .ok c ∧
         loadedIds (Execute d env).1 = pre ++ [id]) ∧
    (∀ pre id er post, ids = pre ++ id :: post →
       (∀ i ∈ pre, loadOkNonMatch env d.pid i = true) →
       env.load id = .error er →
       Execute d env = (.listContainers :: (pre ++ [id]).map .loadContainer,
         .failure (.loadingContainer id er))) ∧
    ((∀ i ∈ ids, loadOkNonMatch env d.pid i = true) →
       Execute d env = (.listContainers :: ids.map .loadContainer,
         .failure (.containerNotFound d.pid))) := by
  refine ⟨?_, ?_, ?_⟩
  · intro pre id c post hids hpre hload hmatch
    have hscan := scanForPid_first_match env d.pid pre id c post hpre hload hmatch
    have hres : resolveTarget d env =
        (.listContainers :: (pre ++ [id]).map .loadContainer, .ok c) := by
      rw [← hids] at hscan
      simp [resolveTarget, hpid, hn, hlist, hscan]
    constructor
    · rw [hres]
    · rw [loadedIds_execute, hres]
      simp only [loadedIds, List.filterMap_cons]
      rw [show loadOf Event.listContainers = none from rfl]
      exact loadedIds_map_loadContainer (pre ++ [id])
  · intro pre id er post hids hpre hload
    have hscan := scanForPid_load_failure env d.pid pre id er post hpre hload
    rw [← hids] at hscan
    have hres : resolveTarget d env =
        (.listContainers :: (pre ++ [id]).map .loadContainer,
         .error (.failure (.loadingContainer id er))) := by
      simp [resolveTarget, hpid, hn, hlist, hscan]
    simp [Execute, mainPhase, afterResolve, hres, runDefers, statusOutcome]
  · intro hall
    have hscan := scanForPid_no_match env d.pid ids hall
    have hres : resolveTarget d env =
        (.listContainers :: ids.map .loadContainer,
         .error (.failure (.containerNotFound d.pid))) := by
      simp [resolveTarget, hpid, hn, hlist, hscan]
    simp [Execute, mainPhase, afterResolve, hres, runDefers, statusOutcome]

/-- C4 witness: two containers with PIDs 5 and 42; the scan for PID 42
loads both, selects the second, and a scan for PID 99 reports not-found. -/
def cPid5 : Container := { sandboxPid := 5, sandbox := some { id := "a".data, pid := 5, running := true } }

/-- The matching container of the C4 witness. -/
def cPid42 : Container := { sandboxPid := 42, sandbox := some { id := "b".data, pid := 42, running := true } }

/-- Environment of the C4 witness: registry lists "a" then "b". -/
def envC4 : Env :=
  { envOK with
    nargs := 0,
    list := .ok ["a".data, "b".data],
    load := fun id => if id = "a".data then .ok cPid5 else .ok cPid42 }

theorem c4_witness :
    (resolveTarget { dDefault with pid := 42 } envC4).2 = .ok cPid42 ∧
    loadedIds (Execute { dDefault with pid := 42 } envC4).1 = ["a".data, "b".data] ∧
    Execute { dDefault with pid := 99 } envC4 =
      (.listContainers :: [Event.loadContainer "a".data, Event.loadContainer "b".data],
       .failure (.containerNotFound 99)) := by
  refine ⟨?_, ?_, ?_⟩
  · exact ((c4_pid_resolution { dDefault with pid := 42 } envC4 ["a".data, "b".data]
      (by decide) rfl rfl).1 ["a".data] "b".data cPid42 [] rfl (by decide) rfl rfl).1
  · exact ((c4_pid_resolution { dDefault with pid := 42 } envC4 ["a".data, "b".data]
      (by decide) rfl rfl).1 ["a".data] "b".data cPid42 [] rfl (by decide) rfl rfl).2
  · exact (c4_pid_resolution { dDefault with pid := 99 } envC4 ["a".data, "b".data]
      (by decide) rfl rfl).2.2 (by decide)

/-! ### C5 -/

/-- C5: argument-count validation: with `pid == 0` any positional count
other than one yields a usage-error exit with an empty trace (no
resolution or diagnostic action attempted); with `pid != 0` any count
other than zero does likewise. -/
theorem c5_usage_validation (d : Debug) (env : Env) :
    (d.pid = 0 → env.nargs ≠ 1 → Execute d env = ([], .usageErr)) ∧
    (d.pid ≠ 0 → env.nargs ≠ 0 → Execute d env = ([], .usageErr)) := by
  constructor <;> intro h1 h2 <;>
    simp [Execute, mainPhase, afterResolve, resolveTarget, h1, h2, runDefers, statusOutcome]

theorem c5_witness :
    Execute dDefault { envOK with nargs := 2 } = ([], .usageErr) ∧
    Execute { dDefault with pid := 42 } { envOK with nargs := 1 } = ([], .usageErr) :=
  ⟨(c5_usage_validation dDefault { envOK with nargs := 2 }).1 rfl (by decide),
   (c5_usage_validation { dDefault with pid := 42 } { envOK with nargs := 1 }).2
     (by decide) (by decide)⟩

/-! ### C6 -/

/-- C6: the log-level parse table accepts exactly warning/0, info/1 and
debug/2, case-insensitively; any other non-empty value fails with
`invalidLogLevel`; in that case no logging reconfiguration is ever sent
to the sandbox, and in the end-to-end scenario the command returns the
invalid-log-level failure right after resolution. -/
theorem c6_log_level (d : Debug) (env : Env) :
    (∀ (lvl : Str) (a : LoggingArgs), lvl ≠ [] →
       ((lower lvl = "warning".data ∨ lower lvl = "0".data →
           levelArgs lvl a = .ok { a with setLevel := true, level := .warning }) ∧
        (lower lvl = "info".data ∨ lower lvl = "1".data →
           levelArgs lvl a = .ok { a with setLevel := true, level := .info }) ∧
        (lower lvl = "debug".data ∨ lower lvl = "2".data →
           levelArgs lvl a = .ok { a with setLevel := true, level := .debug }) ∧
        (lower lvl ≠ "warning".data → lower lvl ≠ "0".data →
         lower lvl ≠ "info".data → lower lvl ≠ "1".data →
         lower lvl ≠ "debug".data → lower lvl ≠ "2".data →
           levelArgs lvl a = .error (.invalidLogLevel lvl)))) ∧
    (d.logLevel ≠ [] →
     lower d.logLevel ≠ "warning".data → lower d.logLevel ≠ "0".data →
     lower d.logLevel ≠ "info".data → lower d.logLevel ≠ "1".data →
     lower d.logLevel ≠ "debug".data → lower d.logLevel ≠ "2".data →
       (∀ a : LoggingArgs, Event.changeLogging a ∉ (Execute d env).1) ∧
       (∀ c sb, d.pid = 0 → env.nargs = 1 → env.load env.arg0 = .ok c →
          c.sandbox = some sb → sb.running = true →
          d.signal = -1 → d.wantStacks = false → d.profileHeap = [] →
          d.profileCPU = [] → d.trace = [] →
          Execute d env = ([.loadContainer env.arg0],
            .failure (.invalidLogLevel d.logLevel)))) := by
  constructor
  · intro lvl a hne
    have hlen : lvl.length ≠ 0 := by simpa using hne
    refine ⟨?_, ?_, ?_, ?_⟩
    · intro h
      unfold levelArgs
      rw [if_pos hlen, if_pos h]
    · intro h
      rcases h with h | h <;> simp [levelArgs, hlen, h]
    · intro h
      rcases h with h | h <;> simp [levelArgs, hlen, h]
    · intro hw h0 hi hone hd h2
      unfold levelArgs
      rw [if_pos hlen, if_neg (by simp [hw, h0]), if_neg (by simp [hi, hone]),
        if_neg (by simp [hd, h2])]
  · intro hne hw h0 hi hone hd h2
    have hbuild : buildLoggingArgs d = .error (.invalidLogLevel d.logLevel) :=
      buildLoggingArgs_invalid_level d hne hw h0 hi hone hd h2
    constructor
    · intro a hmem
      have := (changeLogging_mem_execute d env a hmem).1
      rw [hbuild] at this
      cases this
    · intro c sb hp0 hn1 hld hsb hrun hsig hst hph hpc htr
      have hres := resolveTarget_happy d env c hp0 hn1 hld
      have hcond' : ¬d.strace = [] ∨ ¬d.logLevel = [] ∨ ¬d.logPackets = [] :=
        Or.inr (Or.inl hne)
      simp [Execute, mainPhase, afterResolve, hres, hsb, hrun, actionSteps, chain, stepOnly,
        signalStep, hsig, stacksStep, hst, heapStep, hph, cpuStep, hpc, traceStep, htr,
        loggingStep, hcond', hbuild, sleepStep, runDefers, statusOutcome]

/-- A request with an invalid log level. -/
def dC6 : Debug := { dDefault with logLevel := "bogus".data }

theorem c6_witness :
    Execute dC6 envOK = ([.loadContainer "x".data],
      .failure (.invalidLogLevel "bogus".data)) ∧
    levelArgs "INFO".data { setStrace := true } =
      .ok { setStrace := true, setLevel := true, level := .info } := by
  constructor
  · exact ((c6_log_level dC6 envOK).2 (by decide) (by decide) (by decide) (by decide)
      (by decide) (by decide) (by decide)).2 cOK sbOK rfl rfl rfl rfl rfl rfl rfl rfl rfl rfl
  · exact ((c6_log_level dC6 envOK).1 "INFO".data { setStrace := true } (by decide)).2.1
      (Or.inl (by decide))

/-! ### C7 -/

/-- C7: in any built logging set, an "off" strace spec (case-insensitive)
gives `setStrace = true` with `enableStrace = false`; "all" gives
`enableStrace = true` with an empty whitelist; any other non-empty value
gives `enableStrace = true` with the whitelist equal to the value split
on commas, so "read,write" yields ["read", "write"]. -/
theorem c7_strace_spec :
    (∀ d a, buildLoggingArgs d = .ok a → d.strace ≠ [] →
       ((lower d.strace = "off".data → a.setStrace = true ∧ a.enableStrace = false) ∧
        (lower d.strace = "all".data →
           a.setStrace = true ∧ a.enableStrace = true ∧ a.straceWhitelist = []) ∧
        (lower d.strace ≠ "off".data → lower d.strace ≠ "all".data →
           a.setStrace = true ∧ a.enableStrace = true ∧
             a.straceWhitelist = splitOn ',' d.strace))) ∧
    splitOn ',' "read,write".data = ["read".data, "write".data] := by
  constructor
  · intro d a hb hne
    have hflags := buildLoggingArgs_flags d a hb
    have hfields := buildLoggingArgs_strace_fields d a hb
    refine ⟨?_, ?_, ?_⟩
    · intro hoff
      rw [straceArgs_off d.strace _ hoff] at hfields
      exact ⟨hflags.1, by rw [hfields.1]⟩
    · intro hall
      have hoff : lower d.strace ≠ "off".data := by
        rw [hall]; decide
      rw [straceArgs_all d.strace _ hne hoff hall] at hfields
      exact ⟨hflags.1, by rw [hfields.1], by rw [hfields.2]⟩
    · intro hoff hall
      rw [straceArgs_listed d.strace _ hne hoff hall] at hfields
      exact ⟨hflags.1, by rw [hfields.1], by rw [hfields.2]⟩
  · decide

/-- A request tracing two syscalls. -/
def dC7 : Debug := { dDefault with strace := "read,write".data }

theorem c7_witness :
    buildLoggingArgs dC7 =
      .ok { setStrace := true, enableStrace := true,
            straceWhitelist := ["read".data, "write".data] } ∧
    ({ setStrace := true, enableStrace := true,
       straceWhitelist := ["read".data, "write".data] } : LoggingArgs).straceWhitelist =
      splitOn ',' dC7.strace := by
  have hb : buildLoggingArgs dC7 =
      .ok { setStrace := true, enableStrace := true,
            straceWhitelist := ["read".data, "write".data] } := rfl
  have h := ((c7_strace_spec).1 dC7 _ hb (by decide)).2.2 (by decide) (by decide)
  exact ⟨hb, h.2.2⟩

/-! ### C8 -/

/-- C8: a non-positive requested signal never causes a delivery attempt,
and with everything else at defaults the command still succeeds (the step
is skipped, not an error); a positive signal causes exactly one delivery
attempt to the resolved sandbox's OS pid; a delivery failure yields a
failure status carrying the signal number and the target pid. -/
theorem c8_signal (d : Debug) (env : Env) :
    (d.signal ≤ 0 → killAttempts (Execute d env).1 = []) ∧
    (∀ c sb, (resolveTarget d env).2 = .ok c → c.sandbox = some sb →
       sb.running = true → 0 < d.signal →
       killAttempts (Execute d env).1 = [(d.signal, sb.pid)]) ∧
    (∀ c sb er, (resolveTarget d env).2 = .ok c → c.sandbox = some sb →
       sb.running = true → 0 < d.signal → env.kill sb.pid d.signal = .error er →
       (Execute d env).2 = .failure (.signalFailed d.signal sb.pid)) ∧
    (∀ c sb, d.pid = 0 → env.nargs = 1 → env.load env.arg0 = .ok c →
       c.sandbox = some sb → sb.running = true → d.signal ≤ 0 →
       d.wantStacks = false → d.profileHeap = [] → d.profileCPU = [] → d.trace = [] →
       d.strace = [] → d.logLevel = [] → d.logPackets = [] →
       Execute d env = ([.loadContainer env.arg0], .success)) := by
  refine ⟨?_, ?_, ?_, ?_⟩
  · intro hsig
    refine List.filterMap_eq_nil_iff.mpr fun e he => ?_
    rcases mem_execute_events d env _ he with h1 | ⟨b, _, h1⟩
    · rcases mem_mainPhase_events d env _ h1 with
        h2 | ⟨sb, h2⟩ | h2 | h2 | h2 | h2 | h2 | ⟨h2, _⟩
      · rcases mem_resolveTarget d env _ h2 with h3 | ⟨id, h3⟩ <;> simp [h3, killOf]
      · have := mem_signalStep d env sb _ h2
        omega
      · have := mem_stacksStep d env _ h2
        simp [this, killOf]
      · rcases mem_heapStep d env _ h2 with h3 | h3 <;> simp [h3, killOf]
      · rcases mem_cpuStep d env _ h2 with h3 | h3 <;> simp [h3, killOf]
      · rcases mem_traceStep d env _ h2 with h3 | h3 <;> simp [h3, killOf]
      · rcases mem_loggingStep d env _ h2 with ⟨a, h3, _⟩
        simp [h3, killOf]
      · simp [h2, killOf]
    · rcases mem_runOneDefer env b _ h1 with ⟨p, _, h2⟩ | ⟨p, _, h2 | h2⟩ | ⟨p, _, h2 | h2⟩ <;>
        simp [h2, killOf]
  · intro c sb hres hsb hrun hsig
    exact killAttempts_execute_resolved d env c sb hres hsb hrun hsig
  · intro c sb er hres hsb hrun hsig hkill
    simp [Execute, mainPhase, afterResolve, hres, hsb, hrun, actionSteps, chain, stepOnly,
      signalStep, hsig, hkill, runDefers, statusOutcome]
  · intro c sb h0 h1 h2 hsb hrun hsig hst hph hpc htr hstrace hlvl hlp
    have hres := resolveTarget_happy d env c h0 h1 h2
    have hsig' : ¬d.signal > 0 := by omega
    simp [Execute, mainPhase, afterResolve, hres, hsb, hrun, actionSteps, chain, stepOnly,
      signalStep, hsig', stacksStep, hst, heapStep, hph, cpuStep, hpc, traceStep, htr,
      loggingStep, hstrace, hlvl, hlp, sleepStep, runDefers, statusOutcome]

/-- A request sending signal 9. -/
def dC8 : Debug := { dDefault with signal := 9 }

/-- An environment where signal delivery fails. -/
def envC8 : Env := { envOK with kill := fun _ _ => .error "kill failed".data }

theorem c8_witness :
    killAttempts (Execute dC8 envOK).1 = [(9, 7)] ∧
    (Execute dC8 envC8).2 = .failure (.signalFailed 9 7) ∧
    Execute dDefault envOK = ([.loadContainer "x".data], .success) := by
  refine ⟨?_, ?_, ?_⟩
  · exact (c8_signal dC8 envOK).2.1 cOK sbOK rfl rfl rfl (by decide)
  · exact (c8_signal dC8 envC8).2.2.1 cOK sbOK "kill failed".data rfl rfl rfl (by decide) rfl
  · exact (c8_signal dDefault envOK).2.2.2 cOK sbOK rfl rfl rfl rfl rfl (by decide) rfl
      rfl rfl rfl rfl rfl rfl

/-! ### C9 -/

/-- C9: if the CPU-profile file is created but the start request fails,
the command reports the start error, yet the deferred cleanup — which was
registered before the start was attempted — still issues the stop
request; if that stop also fails, the run ends in abrupt process
termination (`Fatalf`) even though the session was never active. -/
theorem c9_stop_after_failed_start (d : Debug) (env : Env) (c : Container)
    (sb : Sandbox) (er : Str)
    (h0 : d.pid = 0) (h1 : env.nargs = 1) (h2 : env.load env.arg0 = .ok c)
    (hsb : c.sandbox = some sb) (hrun : sb.running = true)
    (hsig : d.signal = -1) (hst : d.wantStacks = false) (hph : d.profileHeap = [])
    (hpc : d.profileCPU ≠ []) (hcr : env.create d.profileCPU = .ok ())
    (hstart : env.startCPU = .error er) :
    (env.stopCPU = .ok () →
       Execute d env = ([.loadContainer env.arg0, .createFile d.profileCPU,
         .startCPUProfile d.profileCPU, .closeFile d.profileCPU, .stopCPUProfile],
         .failure (.plain er))) ∧
    (∀ er2, env.stopCPU = .error er2 →
       Execute d env = ([.loadContainer env.arg0, .createFile d.profileCPU,
         .startCPUProfile d.profileCPU, .closeFile d.profileCPU, .stopCPUProfile],
         .fatalStop er2)) := by
  have hres := resolveTarget_happy d env c h0 h1 h2
  constructor
  · intro hstop
    simp [Execute, mainPhase, afterResolve, hres, hsb, hrun, actionSteps, chain, stepOnly,
      signalStep, hsig, stacksStep, hst, heapStep, hph, cpuStep, hpc, hcr, hstart,
      runDefers, runOneDefer, hstop, statusOutcome]
  · intro er2 hstop
    simp [Execute, mainPhase, afterResolve, hres, hsb, hrun, actionSteps, chain, stepOnly,
      signalStep, hsig, stacksStep, hst, heapStep, hph, cpuStep, hpc, hcr, hstart,
      runDefers, runOneDefer, hstop, statusOutcome]

/-- A request asking for a CPU profile (C9 witness). -/
def dC9 : Debug := { dDefault with profileCPU := "cpu".data }

/-- An environment where the CPU-profile start and stop both fail. -/
def envC9 : Env :=
  { envOK with
    startCPU := .error "start failed".data
    stopCPU := .error "stop failed".data }

theorem c9_witness :
    Execute dC9 envC9 = ([.loadContainer "x".data, .createFile "cpu".data,
      .startCPUProfile "cpu".data, .closeFile "cpu".data, .stopCPUProfile],
      .fatalStop "stop failed".data) :=
  (c9_stop_after_failed_start dC9 envC9 cOK sbOK "start failed".data rfl rfl rfl rfl rfl
    rfl rfl rfl (by decide) rfl rfl).2 "stop failed".data rfl

/-! ### C10 -/

/-- C10: the whitelist split is Go `strings.Split` on commas with no
trimming: parts contain no comma, joining the parts with commas restores
the original string exactly (order and character case preserved), the
number of parts is one more than the number of commas (so consecutive or
trailing commas yield empty entries), the non-off/all strace branch
stores exactly this split, and "A, B," splits into ["A", " B", ""]. -/
theorem c10_split_semantics :
    (∀ l : Str, joinWith ',' (splitOn ',' l) = l) ∧
    (∀ (l p : Str), p ∈ splitOn ',' l → ',' ∉ p) ∧
    (∀ l : Str, (splitOn ',' l).length = l.count ',' + 1) ∧
    (∀ (s : Str) (a : LoggingArgs), s ≠ [] → lower s ≠ "off".data →
       lower s ≠ "all".data → (straceArgs s a).straceWhitelist = splitOn ',' s) ∧
    splitOn ',' "A, B,".data = ["A".data, " B".data, []] := by
  refine ⟨joinWith_splitOn ',', fun l p hp => not_mem_of_mem_splitOn ',' l p hp,
    length_splitOn ',', fun s a h1 h2 h3 => ?_, by decide⟩
  rw [straceArgs_listed s a h1 h2 h3]

theorem c10_witness :
    joinWith ',' (splitOn ',' "A, B,".data) = "A, B,".data ∧
    (straceArgs "x,y".data { setStrace := true }).straceWhitelist =
      splitOn ',' "x,y".data :=
  ⟨(c10_split_semantics).1 "A, B,".data,
   (c10_split_semantics).2.2.2.1 "x,y".data { setStrace := true }
     (by decide) (by decide) (by decide)⟩

end RunscDebug
